import Mathlib

/-!
Verification of the replayr proxy (src/main.rs) against its specification.

The Rust source is shallowly embedded: each Lean definition below translates
one Rust item and is annotated with the source lines it embeds.  Rust's
`HashMap<String, String>` is modelled as an association list with
insert-replaces semantics; machine integers (`u16`, `u64`, `u128`, `usize`)
are modelled as `Nat`, with an explicit `% 2 ^ 64` where u64 overflow matters;
`serde_json::Value` is modelled by the inductive `Json` below (numbers are
modelled as arbitrary-precision integers: floating-point JSON numbers are
outside the model, and the model's parser rejects a float rather than
misreading it).
-/

namespace Replayr

/-! ### Association-list model of `HashMap<String, V>` -/

/-- Lookup in a string-keyed map (`HashMap::get`). -/
def alLookup {α : Type} (m : List (String × α)) (k : String) : Option α :=
  (m.find? (fun p => p.1 == k)).map Prod.snd

/-- Key-presence test (`HashMap::contains_key`). -/
def alContains {α : Type} (m : List (String × α)) (k : String) : Bool :=
  (m.find? (fun p => p.1 == k)).isSome

/-- Insert with replacement (`HashMap::insert`): an existing binding of the key
is overwritten in place, otherwise the binding is added. -/
def alInsert {α : Type} (m : List (String × α)) (k : String) (v : α) :
    List (String × α) :=
  if alContains m k then m.map (fun p => if p.1 == k then (k, v) else p)
  else (k, v) :: m

/-- Removal (`HashMap::remove`), dropping every binding of the key. -/
def alRemove {α : Type} (m : List (String × α)) (k : String) :
    List (String × α) :=
  m.filter (fun p => p.1 != k)

/-- A header mapping: lowercased name to value (`HashMap<String, String>`). -/
abbrev HeaderMap := List (String × String)

/-! ### The JSON value model (`serde_json::Value`) -/

/-- Model of `serde_json::Value`.  Numbers are arbitrary-precision integers
(floats are outside the model); objects are field lists in textual order. -/
inductive Json where
  | null
  | bool (b : Bool)
  | num (n : Int)
  | str (s : String)
  | arr (elems : List Json)
  | obj (fields : List (String × Json))

/-! ### Data model (main.rs lines 83-146) -/

/-- `StoredRequest` (main.rs lines 92-98). -/
structure StoredRequest where
  method : String
  path : String
  headers : HeaderMap
  body : Json

/-- `Chunk` (main.rs lines 109-113); `delay_ms: u128` modelled as `Nat`. -/
structure Chunk where
  delay_ms : Nat
  data : String

/-- `StoredResponse` (main.rs lines 100-107); `status: u16` modelled as `Nat`. -/
structure StoredResponse where
  status : Nat
  headers : HeaderMap
  streaming : Bool
  chunks : List Chunk
  body : Option Json

/-- `Metadata` (main.rs lines 115-124); `u64`/`u128` fields modelled as `Nat`. -/
structure Metadata where
  provider : Option String := none
  model : Option String := none
  input_tokens : Option Nat := none
  output_tokens : Option Nat := none
  total_tokens : Option Nat := none
  latency_ms : Nat := 0
  latency_to_first_chunk_ms : Option Nat := none

/-- `Interaction` (main.rs lines 83-90); the `DateTime<Utc>` timestamp is
modelled as an abstract `Nat` instant. -/
structure Interaction where
  id : String
  recorded_at : Nat
  request : StoredRequest
  response : StoredResponse
  metadata : Metadata

/-! ### Redaction (main.rs lines 966-979) -/

/-- The three sensitive header names of `redact_headers` (main.rs line 967). -/
def REDACT_KEYS : List String := ["authorization", "x-api-key", "api-key"]

/-- One iteration of the `redact_headers` loop: if the key is present, its
value is overwritten with `"REDACTED"` (main.rs lines 968-970). -/
def redactStep (h : HeaderMap) (key : String) : HeaderMap :=
  if alContains h key then alInsert h key "REDACTED" else h

/-- `redact_headers` (main.rs lines 966-972). -/
def redact_headers (h : HeaderMap) : HeaderMap :=
  REDACT_KEYS.foldl redactStep h

/-- `redact_interaction` (main.rs lines 974-979): a copy of the interaction
with both header maps redacted; every other field is taken over unchanged. -/
def redact_interaction (i : Interaction) : Interaction :=
  { i with
    request := { i.request with headers := redact_headers i.request.headers }
    response := { i.response with headers := redact_headers i.response.headers } }

/-! ### Compact JSON serialization (`serde_json::to_string`)

`Value::to_string` is the `_ => value.to_string()` arm of
`json_value_to_body_string` (main.rs line 938).  The decimal digits of a
number are produced by a fuel-driven loop so that the definition reduces on
concrete input; `natCharsAux_eq_digits` below ties it to `Nat.digits`. -/

/-- The decimal digit character for `d < 10`. -/
def digitChar (d : Nat) : Char := Char.ofNat (48 + d)

/-- Lowercase hexadecimal digit character for `d < 16`. -/
def hexChar (d : Nat) : Char :=
  if d < 10 then Char.ofNat (48 + d) else Char.ofNat (87 + d)

/-- Decimal digits of `n`, most significant first; `[]` for `n = 0`.  The
first argument is fuel (any amount at least `n` is enough). -/
def natCharsAux : Nat → Nat → List Char
  | 0, _ => []
  | _ + 1, 0 => []
  | fuel + 1, n + 1 => natCharsAux fuel ((n + 1) / 10) ++ [digitChar ((n + 1) % 10)]

/-- Decimal rendering of a natural number. -/
def natChars (n : Nat) : List Char :=
  if n = 0 then ['0'] else natCharsAux n n

/-- Decimal rendering of an integer (serde_json renders `-0` as `0`, and so
does this model: `Int.natAbs 0 = 0`). -/
def intChars (n : Int) : List Char :=
  if n < 0 then '-' :: natChars n.natAbs else natChars n.natAbs

/-- serde_json's string escaping: quote and backslash, the short escapes for
backspace, tab, newline, form feed and carriage return, `\u00XX` (lowercase
hex) for the remaining control characters, everything else verbatim. -/
def escChar (c : Char) : List Char :=
  if c = '"' then ['\\', '"']
  else if c = '\\' then ['\\', '\\']
  else if c = Char.ofNat 8 then ['\\', 'b']
  else if c = '\t' then ['\\', 't']
  else if c = '\n' then ['\\', 'n']
  else if c = Char.ofNat 12 then ['\\', 'f']
  else if c = Char.ofNat 13 then ['\\', 'r']
  else if c.toNat < 32 then
    ['\\', 'u', '0', '0', hexChar (c.toNat / 16), hexChar (c.toNat % 16)]
  else [c]

/-- String-body escaping, character by character. -/
def escChars : List Char → List Char
  | [] => []
  | c :: cs => escChar c ++ escChars cs

mutual

/-- Compact serialization of a JSON value. -/
def serJson : Json → List Char
  | .null => "null".data
  | .bool true => "true".data
  | .bool false => "false".data
  | .num n => intChars n
  | .str s => ('"' :: escChars s.data) ++ ['"']
  | .arr es => ('[' :: serElems es) ++ [']']
  | .obj fs => (Char.ofNat 123 :: serFields fs) ++ [Char.ofNat 125]

/-- Serialization of the element list of an array (no brackets). -/
def serElems : List Json → List Char
  | [] => []
  | e :: es => serJson e ++ serElemsTail es

/-- Serialization of `,elem` for each further array element. -/
def serElemsTail : List Json → List Char
  | [] => []
  | e :: es => ',' :: (serJson e ++ serElemsTail es)

/-- Serialization of the field list of an object (no braces). -/
def serFields : List (String × Json) → List Char
  | [] => []
  | (k, v) :: fs => serField k v ++ serFieldsTail fs

/-- Serialization of `,key:value` for each further object field. -/
def serFieldsTail : List (String × Json) → List Char
  | [] => []
  | (k, v) :: fs => ',' :: (serField k v ++ serFieldsTail fs)

/-- Serialization of one `key:value` object field. -/
def serField (k : String) (v : Json) : List Char :=
  ('"' :: escChars k.data) ++ ('"' :: ':' :: serJson v)

end

/-! ### JSON parsing (`serde_json::from_str::<Value>`)

Strict JSON over the modelled value space: whitespace is the JSON whitespace
set, numbers are integers (a fraction or exponent makes the parse fail rather
than be misread — floats are outside the model), strings support the JSON
escapes except surrogate pairs, and input after the top-level value other
than whitespace fails the parse.  The recursion over nested values is driven
by fuel; `parseJson` passes fuel exceeding any possible nesting depth. -/

/-- JSON whitespace: space, tab, line feed, carriage return. -/
def isWsChar (c : Char) : Bool := c == ' ' || c == '\t' || c == '\n' || c == Char.ofNat 13

/-- Drop leading JSON whitespace. -/
def skipWs : List Char → List Char
  | [] => []
  | c :: cs => if isWsChar c then skipWs cs else c :: cs

/-- ASCII decimal digit test. -/
def isDigitChar (c : Char) : Bool := 48 ≤ c.toNat && c.toNat ≤ 57

/-- Longest digit prefix, as digit values, with the remaining input. -/
def takeDigits : List Char → List Nat × List Char
  | [] => ([], [])
  | c :: cs =>
    if isDigitChar c then
      let r := takeDigits cs
      ((c.toNat - 48) :: r.1, r.2)
    else ([], c :: cs)

/-- The value of a most-significant-first digit list. -/
def digitsVal (ds : List Nat) : Nat := ds.foldl (fun a d => a * 10 + d) 0

/-- A number must not continue with a fraction or exponent: those are floats,
which are outside the model. -/
def numberStop (cs : List Char) : Bool :=
  match cs with
  | [] => true
  | c :: _ => !(c == '.' || c == 'e' || c == 'E')

/-- Hexadecimal digit value. -/
def hexVal (c : Char) : Option Nat :=
  if 48 ≤ c.toNat ∧ c.toNat ≤ 57 then some (c.toNat - 48)
  else if 97 ≤ c.toNat ∧ c.toNat ≤ 102 then some (c.toNat - 87)
  else if 65 ≤ c.toNat ∧ c.toNat ≤ 70 then some (c.toNat - 55)
  else none

/-- The single-character JSON escapes. -/
def unescShort (c : Char) : Option Char :=
  if c = '"' then some '"'
  else if c = '\\' then some '\\'
  else if c = '/' then some '/'
  else if c = 'b' then some (Char.ofNat 8)
  else if c = 'f' then some (Char.ofNat 12)
  else if c = 'n' then some '\n'
  else if c = 'r' then some (Char.ofNat 13)
  else if c = 't' then some '\t'
  else none

/-- Parse a string body up to and including the closing quote (the opening
quote has been consumed).  Unescaped control characters are rejected, as are
surrogate code units (surrogate-pair escapes are outside the model). -/
def parseStrChars : List Char → Option (List Char × List Char)
  | [] => none
  | c :: cs =>
    if c = '"' then some ([], cs)
    else if c = '\\' then
      match cs with
      | [] => none
      | e :: cs2 =>
        if e = 'u' then
          match cs2 with
          | h1 :: h2 :: h3 :: h4 :: cs3 =>
            match hexVal h1, hexVal h2, hexVal h3, hexVal h4 with
            | some a, some b, some c3, some d =>
              let code := a * 4096 + b * 256 + c3 * 16 + d
              if 55296 ≤ code ∧ code < 57344 then none
              else
                match parseStrChars cs3 with
                | some (s, rest) => some (Char.ofNat code :: s, rest)
                | none => none
            | _, _, _, _ => none
          | _ => none
        else
          match unescShort e with
          | some ec =>
            match parseStrChars cs2 with
            | some (s, rest) => some (ec :: s, rest)
            | none => none
          | none => none
    else if c.toNat < 32 then none
    else
      match parseStrChars cs with
      | some (s, rest) => some (c :: s, rest)
      | none => none

mutual

/-- Parse one JSON value, leading whitespace allowed. -/
def parseVal : Nat → List Char → Option (Json × List Char)
  | 0, _ => none
  | fuel + 1, cs =>
    match skipWs cs with
    | [] => none
    | c :: cs1 =>
      if c = 'n' then
        match cs1 with
        | 'u' :: 'l' :: 'l' :: rest => some (.null, rest)
        | _ => none
      else if c = 't' then
        match cs1 with
        | 'r' :: 'u' :: 'e' :: rest => some (.bool true, rest)
        | _ => none
      else if c = 'f' then
        match cs1 with
        | 'a' :: 'l' :: 's' :: 'e' :: rest => some (.bool false, rest)
        | _ => none
      else if c = '"' then
        match parseStrChars cs1 with
        | some (s, rest) => some (.str (String.mk s), rest)
        | none => none
      else if c = '-' then
        match takeDigits cs1 with
        | ([], _) => none
        | (ds, rest) =>
          if numberStop rest then some (.num (-(digitsVal ds : Int)), rest) else none
      else if isDigitChar c then
        match takeDigits (c :: cs1) with
        | (ds, rest) =>
          if numberStop rest then some (.num (digitsVal ds), rest) else none
      else if c = '[' then
        match skipWs cs1 with
        | [] => none
        | c2 :: cs2 =>
          if c2 = ']' then some (.arr [], cs2)
          else
            match parseElems fuel (c2 :: cs2) with
            | some (es, rest) => some (.arr es, rest)
            | none => none
      else if c = Char.ofNat 123 then
        match skipWs cs1 with
        | [] => none
        | c2 :: cs2 =>
          if c2 = Char.ofNat 125 then some (.obj [], cs2)
          else
            match parseFields fuel (c2 :: cs2) with
            | some (fs, rest) => some (.obj fs, rest)
            | none => none
      else none

/-- Parse the elements of a non-empty array, including the closing `]`. -/
def parseElems : Nat → List Char → Option (List Json × List Char)
  | 0, _ => none
  | fuel + 1, cs =>
    match parseVal fuel cs with
    | none => none
    | some (v, rest) =>
      match skipWs rest with
      | [] => none
      | c :: rest2 =>
        if c = ',' then
          match parseElems fuel rest2 with
          | some (es, rest3) => some (v :: es, rest3)
          | none => none
        else if c = ']' then some ([v], rest2)
        else none

/-- Parse the fields of a non-empty object, including the closing brace. -/
def parseFields : Nat → List Char → Option (List (String × Json) × List Char)
  | 0, _ => none
  | fuel + 1, cs =>
    match skipWs cs with
    | [] => none
    | c :: cs1 =>
      if c = '"' then
        match parseStrChars cs1 with
        | none => none
        | some (k, rest) =>
          match skipWs rest with
          | [] => none
          | c2 :: rest2 =>
            if c2 = ':' then
              match parseVal fuel rest2 with
              | none => none
              | some (v, rest3) =>
                match skipWs rest3 with
                | [] => none
                | c3 :: rest4 =>
                  if c3 = ',' then
                    match parseFields fuel rest4 with
                    | some (fs, rest5) => some ((String.mk k, v) :: fs, rest5)
                    | none => none
                  else if c3 = Char.ofNat 125 then some ([(String.mk k, v)], rest4)
                  else none
            else none
      else none

end

/-- `serde_json::from_str::<Value>` over the modelled value space: parse one
value and require only whitespace after it. -/
def parseJson (s : String) : Option Json :=
  match parseVal (s.length + 1) s.data with
  | some (v, rest) => if skipWs rest = [] then some v else none
  | none => none

/-- `text_to_json_or_string` (main.rs lines 950-952): parsed JSON when the
text parses, the text itself as a JSON string otherwise. -/
def text_to_json_or_string (t : String) : Json :=
  match parseJson t with
  | some v => v
  | none => .str t

/-- `json_value_to_body_string` (main.rs lines 934-940): empty string for
null, the raw string for a string value, compact JSON otherwise. -/
def json_value_to_body_string : Json → String
  | .null => ""
  | .str s => s
  | v => String.mk (serJson v)

/-! ### Fuel accounting for the round-trip proof -/

mutual

/-- Fuel sufficient for `parseVal` on the serialization of a value. -/
def needFuel : Json → Nat
  | .arr es => 1 + elemsFuel es
  | .obj fs => 1 + fieldsFuel fs
  | _ => 1

/-- Fuel sufficient for `parseElems` on a serialized element list. -/
def elemsFuel : List Json → Nat
  | [] => 0
  | e :: es => 1 + max (needFuel e) (elemsFuel es)

/-- Fuel sufficient for `parseFields` on a serialized field list. -/
def fieldsFuel : List (String × Json) → Nat
  | [] => 0
  | (_, v) :: fs => 1 + max (needFuel v) (fieldsFuel fs)

end

/-- The characters that may follow a serialized value inside a larger
serialization (or the end of input): after these a number stops. -/
def restOk (cs : List Char) : Prop :=
  match cs with
  | [] => True
  | c :: _ => c = ',' ∨ c = ']' ∨ c = Char.ofNat 125

/-! ### The ring of captured interactions (main.rs lines 534-548) -/

/-- The ring mutation of `store_interaction` (main.rs lines 540-546):
`push_front`, then `pop_back` when the length exceeds `ring_size`.  The
`VecDeque` is modelled newest-first, as its iteration order is. -/
def ring_push (ring_size : Nat) (i : Interaction) (ring : List Interaction) :
    List Interaction :=
  let r := i :: ring
  if ring_size < r.length then r.dropLast else r

/-- Repeated `store_interaction` ring mutations starting from the empty ring,
oldest push first. -/
def ring_push_all (ring_size : Nat) (xs : List Interaction) : List Interaction :=
  xs.foldl (fun r i => ring_push ring_size i r) []

/-! ### Inbound URI handling (main.rs lines 316-342, 360-364) -/

/-- The part of `axum::http::Uri` the data path reads: the path and the
optional raw query string. -/
structure Uri where
  path : String
  query : Option String

/-- `uri.path_and_query()` as read at main.rs lines 317-320. -/
def path_and_query (u : Uri) : String :=
  match u.query with
  | some q => u.path ++ "?" ++ q
  | none => u.path

/-- `str::trim_end_matches('/')`: strip every trailing slash. -/
def trim_trailing_slashes (s : String) : String :=
  String.mk ((s.data.reverse.dropWhile (fun c => c == '/')).reverse)

/-- The upstream URL composed at main.rs lines 360-364: the upstream base
with trailing slashes trimmed, then the full path-and-query. -/
def upstream_url (upstream : String) (u : Uri) : String :=
  trim_trailing_slashes upstream ++ path_and_query u

/-- The `StoredRequest` built at main.rs lines 337-342.  Its `path` field is
`uri.path()` (main.rs line 339). -/
def stored_request_of (u : Uri) (method : String) (outgoing_headers : HeaderMap)
    (body : Json) : StoredRequest :=
  { method := method, path := u.path, headers := outgoing_headers, body := body }

/-! ### The intercept registry (main.rs lines 492-532, 792-822) -/

/-- An entry of the intercept registry (main.rs lines 133-137).  The one-shot
`sender` is a channel, not state, and is outside the registry model;
`request` is the redacted request copy. -/
structure InterceptEntry where
  request : StoredRequest

/-- The registry mapping intercept id to entry (`intercept_queue`). -/
abbrev InterceptQueue := List (String × InterceptEntry)

/-- The entry enqueued by `maybe_intercept` (main.rs lines 512-524): the
request copy has its headers redacted before insertion (lines 516-519). -/
def intercept_entry_of (req : StoredRequest) : InterceptEntry :=
  ⟨{ req with headers := redact_headers req.headers }⟩

/-- The registry-visible events in the life of one intercepted request. -/
inductive InterceptEvent where
  | arrive (id : String) (req : StoredRequest)
  | operatorRelease (id : String)
  | operatorDrop (id : String)
  | timeoutExpiry (id : String)

/-- How each event changes the registry in the code: `arrive` inserts the
entry (main.rs lines 512-524); operator release and drop remove it
(`queue.remove`, main.rs lines 798 and 815); the 300-second timeout arm of
`maybe_intercept` (main.rs lines 525-528) returns `Drop` to the data path
without any registry operation. -/
def intercept_step (q : InterceptQueue) : InterceptEvent → InterceptQueue
  | .arrive id req => alInsert q id (intercept_entry_of req)
  | .operatorRelease id => alRemove q id
  | .operatorDrop id => alRemove q id
  | .timeoutExpiry _ => q

/-! ### The predicate evaluator (main.rs lines 1053-1099) -/

/-- The results of the cel crate's `execute` as far as the proxy inspects
them: a boolean, or anything else. -/
inductive CelValue where
  | bool (b : Bool)
  | other

/-- Abstract interface to the cel crate as `evaluate_expression` uses it:
compilation may fail, conversion of each context value may fail, and
execution may fail or produce a non-boolean. -/
structure CelLib (Program CelVal Error : Type) where
  compile : String → Option Program
  toValue : Json → Option CelVal
  execute : Program → CelVal → CelVal → CelVal → Except Error CelValue

/-- A header map as a JSON object, as serde serializes it. -/
def headers_json (h : HeaderMap) : Json :=
  .obj (h.map (fun p => (p.1, Json.str p.2)))

/-- serde's serialization of an optional string: null when absent. -/
def opt_str_json : Option String → Json
  | none => .null
  | some s => .str s

/-- serde's serialization of an optional unsigned integer. -/
def opt_nat_json : Option Nat → Json
  | none => .null
  | some n => .num n

/-- The `request` context variable (main.rs lines 1059-1064). -/
def request_json (i : Interaction) : Json :=
  .obj [("method", .str i.request.method), ("path", .str i.request.path),
    ("headers", headers_json i.request.headers), ("body", i.request.body)]

/-- The `response` context variable (main.rs lines 1065-1070). -/
def response_json (i : Interaction) : Json :=
  .obj [("status", .num (i.response.status : Int)),
    ("headers", headers_json i.response.headers),
    ("body", match i.response.body with | some v => v | none => .null),
    ("streaming", .bool i.response.streaming)]

/-- The `metadata` context variable (main.rs lines 1071-1079). -/
def metadata_json (i : Interaction) : Json :=
  .obj [("provider", opt_str_json i.metadata.provider),
    ("model", opt_str_json i.metadata.model),
    ("input_tokens", opt_nat_json i.metadata.input_tokens),
    ("output_tokens", opt_nat_json i.metadata.output_tokens),
    ("total_tokens", opt_nat_json i.metadata.total_tokens),
    ("latency_ms", .num (i.metadata.latency_ms : Int)),
    ("latency_to_first_chunk_ms", opt_nat_json i.metadata.latency_to_first_chunk_ms)]

/-- `evaluate_expression` (main.rs lines 1053-1099): every failure path —
compile failure, context conversion failure, runtime error, non-boolean
result — returns `false`. -/
def evaluate_expression {P V E : Type} (lib : CelLib P V E) (expr : String)
    (i : Interaction) : Bool :=
  match lib.compile expr with
  | none => false
  | some prog =>
    match lib.toValue (request_json i), lib.toValue (response_json i),
        lib.toValue (metadata_json i) with
    | some rv, some sv, some mv =>
      match lib.execute prog rv sv mv with
      | .ok (.bool b) => b
      | _ => false
    | _, _, _ => false

/-! ### Egress surfaces (main.rs lines 627-648, 775-790, 828-847, 870-896) -/

/-- The list served by `GET /api/v1/requests` (main.rs lines 627-637): the
redacted ring snapshot, filtered by the optional predicate. -/
def list_requests_items {P V E : Type} (lib : CelLib P V E)
    (ring : List Interaction) (filt : Option String) : List Interaction :=
  let items := ring.map redact_interaction
  match filt with
  | some f => items.filter (fun i => evaluate_expression lib f i)
  | none => items

/-- The item served by `GET /api/v1/requests/:id` (main.rs lines 639-648). -/
def get_request_item (ring : List Interaction) (id : String) : Option Interaction :=
  (ring.find? (fun x => x.id == id)).map redact_interaction

/-- The payload pushed per interaction by `ws_session` (main.rs lines
828-847). -/
def ws_message (i : Interaction) : Interaction := redact_interaction i

/-- The `interactions` array written by `write_cassette` (main.rs lines
870-896): the redacted ring snapshot, restricted to `ids` when given. -/
def cassette_interactions (ring : List Interaction) (ids : Option (List String)) :
    List Interaction :=
  let items := ring.map redact_interaction
  match ids with
  | some l => items.filter (fun i => l.contains i.id)
  | none => items

/-! ### The body modifier (main.rs lines 148-152, 908-919) -/

/-- `BodyModifier` (main.rs lines 148-152), with the compiled regex
abstract. -/
structure BodyModifier (R : Type) where
  regex : R
  replacement : String

/-- The result of running a Rust function that can panic. -/
inductive RustOutcome (α : Type) where
  | ok (val : α)
  | err (msg : String)
  | panicked

/-- Rust `str::split(char)` on a character list: always at least one part. -/
def splitOnChar (sep : Char) : List Char → List (List Char)
  | [] => [[]]
  | c :: cs =>
    if c = sep then [] :: splitOnChar sep cs
    else
      match splitOnChar sep cs with
      | [] => [[c]]
      | p :: ps => (c :: p) :: ps

/-- `parse_body_modifier` (main.rs lines 908-919), byte-exact about the slice
`raw[1..]`: the code takes `chars().next()` as the delimiter and then slices
the string at byte offset 1, which panics when the first character occupies
more than one byte, because byte 1 is then not a character boundary.  The
regex compiler is abstract. -/
def parse_body_modifier {R : Type} (compileRegex : String → Option R)
    (raw : String) : RustOutcome (BodyModifier R) :=
  match raw.data with
  | [] => .err "empty modify-body expression"
  | sep :: rest =>
    if sep.utf8Size ≠ 1 then .panicked
    else
      match splitOnChar sep rest with
      | p0 :: p1 :: _ =>
        match compileRegex (String.mk p0) with
        | some re => .ok ⟨re, String.mk p1⟩
        | none => .err "invalid regex"
      | _ => .err "invalid modify-body expression"

/-! ### The usage extractor (main.rs lines 1007-1051) -/

/-- The whitespace class of the regex crate's `\s` (ASCII part). -/
def isRegexWs (c : Char) : Bool :=
  c == ' ' || c == '\t' || c == '\n' || c == Char.ofNat 11 ||
    c == Char.ofNat 12 || c == Char.ofNat 13

/-- Match a literal character sequence, returning the rest. -/
def matchLit : List Char → List Char → Option (List Char)
  | [], cs => some cs
  | _ :: _, [] => none
  | l :: ls, c :: cs => if c = l then matchLit ls cs else none

/-- Attempt the regex `LIT\s*:\s*(\d+)` at the current position: the quoted
literal, optional whitespace, a colon, optional whitespace, then a maximal
run of one or more digits (the capture, as digit values).  `\s` and `\d` are
modelled as their ASCII classes. -/
def tryTokenMatch (lit : List Char) (cs : List Char) : Option (List Nat × List Char) :=
  match matchLit lit cs with
  | none => none
  | some r1 =>
    match r1.dropWhile isRegexWs with
    | ':' :: r3 =>
      match takeDigits (r3.dropWhile isRegexWs) with
      | ([], _) => none
      | (ds, rest) => some (ds, rest)
    | _ => none

/-- `Regex::captures_iter`: all non-overlapping matches, left to right.  The
first argument is fuel (the input length is enough). -/
def scanTokenMatches (lit : List Char) : Nat → List Char → List (List Nat)
  | 0, _ => []
  | _ + 1, [] => []
  | fuel + 1, c :: cs =>
    match tryTokenMatch lit (c :: cs) with
    | some (ds, rest) => ds :: scanTokenMatches lit fuel rest
    | none => scanTokenMatches lit fuel cs

/-- `captures_iter(..).last()` followed by `str::parse::<u64>` on the
capture (which fails above `2^64 - 1`), as at main.rs lines 1037-1046. -/
def lastTokenCapture (lit : List Char) (body : String) : Option Nat :=
  match (scanTokenMatches lit body.length body.data).getLast? with
  | none => none
  | some ds => if digitsVal ds < 2 ^ 64 then some (digitsVal ds) else none

/-- The literal `"input_tokens"` of the first regex (main.rs line 1035),
quotes included. -/
def inputTokensLit : List Char := "\"input_tokens\"".data

/-- The literal `"output_tokens"` of the second regex (main.rs line 1036). -/
def outputTokensLit : List Char := "\"output_tokens\"".data

/-- `extract_tokens_from_sse` (main.rs lines 1034-1051): the last match of
each regex; `None` unless both sides are found and parse. -/
def extract_tokens_from_sse (body : String) : Option (Nat × Nat) :=
  match lastTokenCapture inputTokensLit body, lastTokenCapture outputTokensLit body with
  | some i, some o => some (i, o)
  | _, _ => none

/-- `Value::get` on an object. -/
def jGet (v : Json) (key : String) : Option Json :=
  match v with
  | .obj fs => alLookup fs key
  | _ => none

/-- `Value::as_u64`: an integer in `0 .. 2^64 - 1`. -/
def jAsU64 (v : Json) : Option Nat :=
  match v with
  | .num n => if 0 ≤ n ∧ n < 2 ^ 64 then some n.toNat else none
  | _ => none

/-- `extract_usage_tokens` (main.rs lines 1007-1032).  u64 addition wraps
modulo `2^64` (release-mode Rust semantics; a debug build panics on
overflow instead). -/
def extract_usage_tokens (m : Metadata) (body : String) : Metadata :=
  match parseJson body with
  | some v =>
    match jGet v "usage" with
    | none => m
    | some usage =>
      let input := ((jGet usage "input_tokens").orElse
        (fun _ => jGet usage "prompt_tokens")).bind jAsU64
      let output := ((jGet usage "output_tokens").orElse
        (fun _ => jGet usage "completion_tokens")).bind jAsU64
      { m with
        input_tokens := input
        output_tokens := output
        total_tokens :=
          (match input, output with
            | some i, some o => some ((i + o) % 2 ^ 64)
            | _, _ => none) }
  | none =>
    match extract_tokens_from_sse body with
    | some (i, o) =>
      { m with
        input_tokens := some i
        output_tokens := some o
        total_tokens := some ((i + o) % 2 ^ 64) }
    | none => m

/-! ### The proxy data path after dispatch (main.rs lines 293-307, 379-490) -/

/-- The upstream interaction as the data path observes it once the request
has been dispatched: a `send()` failure (covering network failures and
invalid upstream URLs, which reqwest surfaces at `send`), a buffered
response whose body read may fail, or an SSE stream whose chunk reads
individually succeed or fail. -/
inductive UpstreamOutcome where
  | sendFail (msg : String)
  | buffered (status : Nat) (headers : HeaderMap) (bodyResult : Except String String)
  | streamed (status : Nat) (headers : HeaderMap)
      (chunkResults : List (Except String (Nat × String)))

/-- What the client connection carries back. -/
inductive ClientReply where
  | errorJson (status : Nat) (payload : Json)
  | bufferedReply (status : Nat) (headers : HeaderMap) (body : String)
  | streamedReply (status : Nat) (headers : HeaderMap) (chunks : List String)

/-- The optional `--modify-body` rewrite, as a text transformation. -/
def applyMod (modifier : Option (String → String)) (text : String) : String :=
  match modifier with
  | some f => f text
  | none => text

/-- The response path of `proxy_handler` / `proxy_handler_impl` (main.rs
lines 293-307 and 379-490) from the moment the upstream request is issued:
a `send()` error or a buffered body-read error propagates as `Err`, which
`proxy_handler` turns into `502 Bad Gateway` with the error JSON, storing
nothing (lines 300-306); a buffered response is transformed, stored (with
redacted response headers) and returned; a streamed response forwards each
successfully read chunk — read errors are skipped by the `if let Ok(bytes)`
at line 414 — and stores a streaming interaction when the stream ends.
Fresh ids, timestamps and latency bookkeeping are abstracted to zero. -/
def proxy_result (modifier : Option (String → String)) (req : StoredRequest)
    (meta0 : Metadata) (out : UpstreamOutcome) : ClientReply × List Interaction :=
  match out with
  | .sendFail msg => (.errorJson 502 (.obj [("error", .str msg)]), [])
  | .buffered _ _ (.error msg) => (.errorJson 502 (.obj [("error", .str msg)]), [])
  | .buffered st hs (.ok text) =>
    let text2 := applyMod modifier text
    let resp : StoredResponse :=
      { status := st
        headers := redact_headers hs
        streaming := false
        chunks := []
        body := some (text_to_json_or_string text2) }
    (.bufferedReply st hs text2,
      [{ id := ""
         recorded_at := 0
         request := req
         response := resp
         metadata := extract_usage_tokens meta0 text2 }])
  | .streamed st hs items =>
    let goods := items.filterMap (fun x => match x with
      | .ok (d, t) => some { delay_ms := d, data := applyMod modifier t : Chunk }
      | .error _ => none)
    let merged := String.join (goods.map (fun c => c.data))
    let resp : StoredResponse :=
      { status := st
        headers := redact_headers hs
        streaming := true
        chunks := goods
        body := none }
    (.streamedReply st hs (goods.map (fun c => c.data)),
      [{ id := ""
         recorded_at := 0
         request := req
         response := resp
         metadata := extract_usage_tokens meta0 merged }])

/-! ### Concrete sample values used by witnesses and counterexamples -/

/-- A representative inbound request. -/
def sampleRequest : StoredRequest :=
  { method := "POST", path := "/v1/messages",
    headers := [("x-api-key", "secret")], body := Json.null }

/-- A representative buffered response. -/
def sampleResponse : StoredResponse :=
  { status := 200, headers := [("content-type", "application/json")],
    streaming := false, chunks := [], body := some (Json.bool true) }

/-- A representative interaction. -/
def sampleInteraction : Interaction :=
  { id := "abc-123", recorded_at := 0, request := sampleRequest,
    response := sampleResponse, metadata := {} }

/-- A cel library stub whose compilation always fails (used only to
instantiate the abstract cel interface at concrete inputs). -/
def trivialCelLib : CelLib Unit Unit Unit :=
  { compile := fun _ => none, toValue := fun _ => some ()
    execute := fun _ _ _ _ => .ok .other }

/-! ### Verification predicates -/

/-- Every sensitive key present in the map carries the literal `REDACTED`. -/
def headers_redacted (h : HeaderMap) : Prop :=
  ∀ k, k ∈ REDACT_KEYS → ∀ v, alLookup h k = some v → v = "REDACTED"

/-- Both header maps of the interaction are redacted. -/
def interaction_redacted (i : Interaction) : Prop :=
  headers_redacted i.request.headers ∧ headers_redacted i.response.headers

/-! ## Lemmas about the association-list map -/

theorem alLookup_map_replace_self {α : Type} (m : List (String × α)) (k : String) (v : α) :
    alLookup (m.map (fun q => if q.1 = k then (k, v) else q)) k
      = (alLookup m k).map (fun _ => v) := by
  induction m with
  | nil => simp [alLookup]
  | cons p m ih =>
    by_cases hpk : p.1 = k
    · have hb : (p.1 == k) = true := by simp [hpk]
      simp [alLookup, List.find?, hpk, hb]
    · have hb : (p.1 == k) = false := by simp [hpk]
      simpa [alLookup, List.find?, hpk, hb] using ih

theorem alLookup_map_replace_ne {α : Type} (m : List (String × α)) (k : String) (v : α)
    (q : String) (hne : q ≠ k) :
    alLookup (m.map (fun r => if r.1 = k then (k, v) else r)) q = alLookup m q := by
  induction m with
  | nil => simp [alLookup]
  | cons p m ih =>
    by_cases hpk : p.1 = k
    · have hkq : (k == q) = false := by
        simp only [beq_eq_false_iff_ne, ne_eq]
        exact fun h => hne h.symm
      have hpq : (p.1 == q) = false := by rw [hpk]; exact hkq
      simpa [alLookup, List.find?, hpk, hkq, hpq] using ih
    · by_cases hpq : p.1 = q
      · have hbq : (p.1 == q) = true := by simp [hpq]
        simp [alLookup, List.find?, hpk, hbq]
      · have hbq : (p.1 == q) = false := by simp [hpq]
        simpa [alLookup, List.find?, hpk, hbq] using ih

theorem alContains_map_replace {α : Type} (m : List (String × α)) (k : String) (v : α)
    (q : String) :
    alContains (m.map (fun r => if r.1 = k then (k, v) else r)) q = alContains m q := by
  induction m with
  | nil => simp [alContains]
  | cons p m ih =>
    by_cases hpk : p.1 = k
    · by_cases hq : k = q
      · have h1 : (p.1 == q) = true := by simp [hpk, hq]
        have h2 : (k == q) = true := by simp [hq]
        simp [alContains, List.find?, hpk, h1, h2]
      · have h1 : (k == q) = false := by simp [hq]
        have h2 : (p.1 == q) = false := by rw [hpk]; exact h1
        simpa [alContains, List.find?, hpk, h1, h2] using ih
    · by_cases hpq : p.1 = q
      · have hbq : (p.1 == q) = true := by simp [hpq]
        simp [alContains, List.find?, hpk, hbq]
      · have hbq : (p.1 == q) = false := by simp [hpq]
        simpa [alContains, List.find?, hpk, hbq] using ih

theorem alLookup_isSome_of_contains {α : Type} (m : List (String × α)) (k : String)
    (hm : alContains m k = true) : ∃ w, alLookup m k = some w := by
  simp only [alContains, Option.isSome_iff_exists] at hm
  obtain ⟨p, hp⟩ := hm
  exact ⟨p.2, by simp [alLookup, hp]⟩

theorem alLookup_none_of_not_contains {α : Type} (m : List (String × α)) (k : String)
    (hm : alContains m k = false) : alLookup m k = none := by
  have h2 : (m.find? fun p => p.1 == k) = none := by
    rw [← Option.not_isSome_iff_eq_none]
    simp only [alContains] at hm
    simp [hm]
  simp [alLookup, h2]

theorem alLookup_insert_self {α : Type} (m : List (String × α)) (k : String) (v : α) :
    alLookup (alInsert m k v) k = some v := by
  unfold alInsert
  by_cases hm : alContains m k
  · obtain ⟨w, hw⟩ := alLookup_isSome_of_contains m k hm
    simp [hm, alLookup_map_replace_self, hw]
  · simp [hm, alLookup, List.find?]

theorem alLookup_insert_ne {α : Type} (m : List (String × α)) (k : String) (v : α)
    (q : String) (hne : q ≠ k) :
    alLookup (alInsert m k v) q = alLookup m q := by
  unfold alInsert
  by_cases hm : alContains m k
  · simp only [hm, if_true]
    have := alLookup_map_replace_ne m k v q hne
    simpa using this
  · have hkq : (k == q) = false := by
      simp only [beq_eq_false_iff_ne, ne_eq]
      exact fun h => hne h.symm
    simp [hm, alLookup, List.find?, hkq]

theorem alContains_insert_of_contains {α : Type} (m : List (String × α)) (k : String)
    (v : α) (q : String) (hm : alContains m k = true) :
    alContains (alInsert m k v) q = alContains m q := by
  simp only [alInsert, hm, if_true]
  have := alContains_map_replace m k v q
  simpa using this

/-! ## Lemmas about redaction -/

theorem redactStep_lookup_other (h : HeaderMap) (key q : String) (hne : q ≠ key) :
    alLookup (redactStep h key) q = alLookup h q := by
  unfold redactStep
  by_cases hc : alContains h key
  · simp [hc, alLookup_insert_ne h key _ q hne]
  · simp [hc]

theorem redactStep_contains (h : HeaderMap) (key q : String) :
    alContains (redactStep h key) q = alContains h q := by
  unfold redactStep
  by_cases hc : alContains h key
  · simp [hc, alContains_insert_of_contains h key _ q hc]
  · simp [hc]

theorem redactStep_lookup_self (h : HeaderMap) (key : String) (v : String)
    (hv : alLookup (redactStep h key) key = some v) : v = "REDACTED" := by
  unfold redactStep at hv
  by_cases hc : alContains h key
  · rw [if_pos hc, alLookup_insert_self] at hv
    exact (Option.some_inj.mp hv).symm
  · rw [if_neg hc] at hv
    rw [alLookup_none_of_not_contains h key (by simpa using hc)] at hv
    exact absurd hv (by simp)

theorem redact_headers_eq_steps (h : HeaderMap) :
    redact_headers h =
      redactStep (redactStep (redactStep h "authorization") "x-api-key") "api-key" := by
  simp [redact_headers, REDACT_KEYS, List.foldl]

theorem redact_headers_redacted (h : HeaderMap) : headers_redacted (redact_headers h) := by
  intro k hk v hv
  rw [redact_headers_eq_steps] at hv
  simp only [REDACT_KEYS, List.mem_cons, List.not_mem_nil, or_false] at hk
  rcases hk with hk | hk | hk
  all_goals subst hk
  · rw [redactStep_lookup_other _ _ _ (by decide),
      redactStep_lookup_other _ _ _ (by decide)] at hv
    exact redactStep_lookup_self _ _ _ hv
  · rw [redactStep_lookup_other _ _ _ (by decide)] at hv
    exact redactStep_lookup_self _ _ _ hv
  · exact redactStep_lookup_self _ _ _ hv

theorem redact_headers_lookup_other (h : HeaderMap) (q : String)
    (hq : ¬q ∈ REDACT_KEYS) : alLookup (redact_headers h) q = alLookup h q := by
  simp only [REDACT_KEYS, List.mem_cons, List.not_mem_nil, or_false] at hq
  push_neg at hq
  rw [redact_headers_eq_steps,
    redactStep_lookup_other _ _ _ hq.2.2,
    redactStep_lookup_other _ _ _ hq.2.1,
    redactStep_lookup_other _ _ _ hq.1]

theorem redact_headers_contains (h : HeaderMap) (q : String) :
    alContains (redact_headers h) q = alContains h q := by
  rw [redact_headers_eq_steps, redactStep_contains, redactStep_contains,
    redactStep_contains]

theorem redact_interaction_is_redacted (i : Interaction) :
    interaction_redacted (redact_interaction i) :=
  ⟨redact_headers_redacted i.request.headers, redact_headers_redacted i.response.headers⟩

/-- C3: every interaction delivered outside the core — the admin list and
single-item responses, WebSocket broadcast payloads, cassette writes, and the
intercept queue display — has the values of `authorization`, `x-api-key` and
`api-key` equal to the literal `REDACTED` whenever those keys are present in
one of its header mappings. -/
theorem egress_headers_redacted {P V E : Type} (lib : CelLib P V E) :
    (∀ ring filt i, i ∈ list_requests_items lib ring filt → interaction_redacted i) ∧
    (∀ ring id i, get_request_item ring id = some i → interaction_redacted i) ∧
    (∀ i, interaction_redacted (ws_message i)) ∧
    (∀ ring ids i, i ∈ cassette_interactions ring ids → interaction_redacted i) ∧
    (∀ req, headers_redacted (intercept_entry_of req).request.headers) := by
  refine ⟨?_, ?_, ?_, ?_, ?_⟩
  · intro ring filt i hi
    simp only [list_requests_items] at hi
    have hmem : i ∈ ring.map redact_interaction := by
      cases filt with
      | none => simpa using hi
      | some f => exact List.mem_of_mem_filter hi
    obtain ⟨j, _, rfl⟩ := List.mem_map.mp hmem
    exact redact_interaction_is_redacted j
  · intro ring id i hi
    simp only [get_request_item, Option.map_eq_some'] at hi
    obtain ⟨j, _, rfl⟩ := hi
    exact redact_interaction_is_redacted j
  · intro i
    exact redact_interaction_is_redacted i
  · intro ring ids i hi
    simp only [cassette_interactions] at hi
    have hmem : i ∈ ring.map redact_interaction := by
      cases ids with
      | none => simpa using hi
      | some l => exact List.mem_of_mem_filter hi
    obtain ⟨j, _, rfl⟩ := List.mem_map.mp hmem
    exact redact_interaction_is_redacted j
  · intro req
    exact redact_headers_redacted req.headers

/-- C10: redacting an interaction changes at most the values bound to
`authorization`, `x-api-key` and `api-key` inside the two header maps: every
other field of the interaction, the value of every other header key, and the
key set of both maps are unchanged.  The Rust function takes its argument by
shared reference and returns a fresh clone, so the original is not mutated;
in this pure model that corresponds to `redact_interaction` being a function
of its argument. -/
theorem redact_interaction_frame (i : Interaction) :
    (redact_interaction i).id = i.id ∧
    (redact_interaction i).recorded_at = i.recorded_at ∧
    (redact_interaction i).request.method = i.request.method ∧
    (redact_interaction i).request.path = i.request.path ∧
    (redact_interaction i).request.body = i.request.body ∧
    (redact_interaction i).response.status = i.response.status ∧
    (redact_interaction i).response.streaming = i.response.streaming ∧
    (redact_interaction i).response.chunks = i.response.chunks ∧
    (redact_interaction i).response.body = i.response.body ∧
    (redact_interaction i).metadata = i.metadata ∧
    (∀ q, ¬q ∈ REDACT_KEYS →
      alLookup (redact_interaction i).request.headers q = alLookup i.request.headers q) ∧
    (∀ q, ¬q ∈ REDACT_KEYS →
      alLookup (redact_interaction i).response.headers q = alLookup i.response.headers q) ∧
    (∀ q, alContains (redact_interaction i).request.headers q
      = alContains i.request.headers q) ∧
    (∀ q, alContains (redact_interaction i).response.headers q
      = alContains i.response.headers q) := by
  refine ⟨rfl, rfl, rfl, rfl, rfl, rfl, rfl, rfl, rfl, rfl, ?_, ?_, ?_, ?_⟩
  · intro q hq
    exact redact_headers_lookup_other _ q hq
  · intro q hq
    exact redact_headers_lookup_other _ q hq
  · intro q
    exact redact_headers_contains _ q
  · intro q
    exact redact_headers_contains _ q

/-! ## The ring of captured interactions -/

theorem ring_push_take (n : Nat) (l : List Interaction) (i : Interaction) :
    ring_push n i (l.take n) = (i :: l).take n := by
  rcases n with _ | m
  · simp [ring_push]
  · by_cases hl : l.length ≤ m
    · have h1 : l.take (m + 1) = l := List.take_of_length_le (by omega)
      rw [h1]
      show (if m + 1 < (i :: l).length then (i :: l).dropLast else i :: l)
        = (i :: l).take (m + 1)
      rw [if_neg (by simp; omega)]
      exact (List.take_of_length_le (by simp; omega)).symm
    · push_neg at hl
      have hlen : (l.take (m + 1)).length = m + 1 := by simp; omega
      show (if m + 1 < (i :: l.take (m + 1)).length
          then (i :: l.take (m + 1)).dropLast else i :: l.take (m + 1))
        = (i :: l).take (m + 1)
      rw [if_pos (by simp [hlen])]
      have hne : l.take (m + 1) ≠ [] := by
        intro h
        rw [h] at hlen
        simp at hlen
      rw [List.dropLast_cons_of_ne_nil hne, List.dropLast_eq_take, hlen]
      simp [List.take_take, List.take_succ_cons]

theorem ring_push_all_eq (n : Nat) (xs : List Interaction) :
    ring_push_all n xs = xs.reverse.take n := by
  induction xs using List.reverseRecOn with
  | nil => simp [ring_push_all]
  | append_singleton ys a ih =>
    unfold ring_push_all at ih ⊢
    rw [List.foldl_append, ih, List.foldl_cons, List.foldl_nil, ring_push_take,
      List.reverse_append]
    simp

/-- C4: the ring never holds more than `ring_size` interactions, its
iteration order is newest-first (the most recent push is the head), when an
insertion overflows the bound the evicted interaction is the oldest (the last
of the newest-first list), and after any sequence of pushes from the empty
ring the contents are exactly the last `ring_size` pushes, newest first; in
particular, after `N ≥ ring_size` pushes the ring holds exactly `ring_size`
interactions. -/
theorem ring_bounded_newest_first (n : Nat) :
    (∀ r (i : Interaction), r.length ≤ n → (ring_push n i r).length ≤ n) ∧
    (∀ r (i : Interaction), r ≠ [] → n ≤ r.length →
      ring_push n i r = i :: r.dropLast) ∧
    (∀ xs : List Interaction, ring_push_all n xs = xs.reverse.take n) ∧
    (∀ xs : List Interaction, n ≤ xs.length → (ring_push_all n xs).length = n) := by
  refine ⟨?_, ?_, ?_, ?_⟩
  · intro r i h
    unfold ring_push
    by_cases hlt : n < (i :: r).length
    · rw [if_pos hlt]
      simp [List.length_dropLast]
      omega
    · rw [if_neg hlt]
      simp at hlt ⊢
      omega
  · intro r i hne h
    unfold ring_push
    have hlt : n < (i :: r).length := by simp; omega
    rw [if_pos hlt, List.dropLast_cons_of_ne_nil hne]
  · intro xs
    exact ring_push_all_eq n xs
  · intro xs h
    rw [ring_push_all_eq]
    simp
    omega

/-! ## The stored request path and the upstream URL -/

/-- C1 (amended): the `path` field of the `StoredRequest` captured in the
interaction is the URI's path WITHOUT the query string (main.rs line 339),
while the upstream call is issued against the upstream base with trailing
slashes trimmed plus the full path-and-query (main.rs lines 360-364). -/
theorem stored_path_and_upstream_url (u : Uri) (method : String)
    (headers : HeaderMap) (body : Json) (base : String) :
    (stored_request_of u method headers body).path = u.path ∧
    upstream_url base u = trim_trailing_slashes base ++ path_and_query u ∧
    (∀ q, u.query = some q → path_and_query u = u.path ++ "?" ++ q) := by
  refine ⟨rfl, rfl, ?_⟩
  intro q hq
  simp [path_and_query, hq]

/-- C1 counterexample: for an inbound URI carrying a query string the stored
`path` is `/v1/messages` and not the full `/v1/messages?stream=true`,
although the upstream URL does carry the full path-and-query. -/
theorem stored_path_drops_query :
    (stored_request_of ⟨"/v1/messages", some "stream=true"⟩ "POST" [] Json.null).path
      = "/v1/messages" ∧
    path_and_query ⟨"/v1/messages", some "stream=true"⟩ = "/v1/messages?stream=true" ∧
    upstream_url "http://upstream/" ⟨"/v1/messages", some "stream=true"⟩
      = "http://upstream/v1/messages?stream=true" ∧
    (stored_request_of ⟨"/v1/messages", some "stream=true"⟩ "POST" [] Json.null).path
      ≠ path_and_query ⟨"/v1/messages", some "stream=true"⟩ := by
  refine ⟨rfl, by decide, by decide, by decide⟩

/-! ## The intercept registry -/

/-- C2 (code bug): operator release and operator drop each remove the entry
from the registry, but expiry of the 300-second timeout removes nothing: the
timeout arm of `maybe_intercept` (main.rs lines 525-528) returns `Drop` to
the data path and leaves the entry in `intercept_queue`, so after a timeout
the registry still holds the entry although no request is pending. -/
theorem intercept_timeout_leaves_entry :
    intercept_step (intercept_step [] (.arrive "a" sampleRequest))
      (.operatorRelease "a") = [] ∧
    intercept_step (intercept_step [] (.arrive "a" sampleRequest))
      (.operatorDrop "a") = [] ∧
    intercept_step (intercept_step [] (.arrive "a" sampleRequest))
      (.timeoutExpiry "a") = [("a", intercept_entry_of sampleRequest)] ∧
    (intercept_step (intercept_step [] (.arrive "a" sampleRequest))
      (.timeoutExpiry "a")).length = 1 := by
  exact ⟨rfl, rfl, rfl, rfl⟩

/-! ## The body-modifier parser -/

/-- C9 (code bug): `parse_body_modifier` panics when the first character of
the expression is multi-byte, because `raw[1..]` slices the string at byte
offset 1 inside that character; with a single-byte delimiter the same shape
parses into a modifier.  The function's `anyhow::Result` return type shows
that totality over bad input is intended; the byte-offset slice panics
nevertheless. -/
theorem parse_body_modifier_multibyte_panics :
    parse_body_modifier (fun s => some s) "→a→b" = RustOutcome.panicked ∧
    parse_body_modifier (fun s => some s) "/a/b"
      = RustOutcome.ok { regex := "a", replacement := "b" } := by
  exact ⟨rfl, rfl⟩

/-! ## The predicate evaluator -/

/-- C8: the predicate evaluator is a total boolean function of the expression
and the interaction, and every failure path — compile failure, context
conversion failure, runtime evaluation error, non-boolean result — yields
`false`; a boolean result is returned as is. -/
theorem evaluate_expression_never_raises {P V E : Type}
    (lib : CelLib P V E) (expr : String) (i : Interaction) :
    (evaluate_expression lib expr i = true ∨ evaluate_expression lib expr i = false) ∧
    (lib.compile expr = none → evaluate_expression lib expr i = false) ∧
    (∀ prog, lib.compile expr = some prog →
      lib.toValue (request_json i) = none →
      evaluate_expression lib expr i = false) ∧
    (∀ prog rv sv mv e, lib.compile expr = some prog →
      lib.toValue (request_json i) = some rv →
      lib.toValue (response_json i) = some sv →
      lib.toValue (metadata_json i) = some mv →
      lib.execute prog rv sv mv = .error e →
      evaluate_expression lib expr i = false) ∧
    (∀ prog rv sv mv, lib.compile expr = some prog →
      lib.toValue (request_json i) = some rv →
      lib.toValue (response_json i) = some sv →
      lib.toValue (metadata_json i) = some mv →
      lib.execute prog rv sv mv = .ok .other →
      evaluate_expression lib expr i = false) ∧
    (∀ prog rv sv mv b, lib.compile expr = some prog →
      lib.toValue (request_json i) = some rv →
      lib.toValue (response_json i) = some sv →
      lib.toValue (metadata_json i) = some mv →
      lib.execute prog rv sv mv = .ok (.bool b) →
      evaluate_expression lib expr i = b) := by
  refine ⟨?_, ?_, ?_, ?_, ?_, ?_⟩
  · cases hb : evaluate_expression lib expr i
    · exact Or.inr rfl
    · exact Or.inl rfl
  · intro h
    simp [evaluate_expression, h]
  · intro prog hc h
    simp [evaluate_expression, hc, h]
  · intro prog rv sv mv e hc h1 h2 h3 he
    simp [evaluate_expression, hc, h1, h2, h3, he]
  · intro prog rv sv mv hc h1 h2 h3 he
    simp [evaluate_expression, hc, h1, h2, h3, he]
  · intro prog rv sv mv b hc h1 h2 h3 he
    simp [evaluate_expression, hc, h1, h2, h3, he]

/-! ## Upstream errors on the data path -/

/-- C5 (amended): every upstream error raised before the response body
streaming begins — `send()` failure (network failure, and an invalid upstream
URL, which reqwest surfaces at `send`) and a buffered body-read failure —
produces `502 Bad Gateway` with the JSON body `{"error": <message>}` and
stores no interaction.  A chunk-read error inside an already-started SSE
stream is excluded: there the status line has already been forwarded, the
failed chunk is skipped, and an interaction is still stored. -/
theorem upstream_error_502_no_store (modifier : Option (String → String))
    (req : StoredRequest) (meta0 : Metadata) :
    (∀ msg, proxy_result modifier req meta0 (.sendFail msg)
      = (.errorJson 502 (.obj [("error", .str msg)]), [])) ∧
    (∀ st hs msg, proxy_result modifier req meta0 (.buffered st hs (.error msg))
      = (.errorJson 502 (.obj [("error", .str msg)]), [])) := by
  exact ⟨fun _ => rfl, fun _ _ _ => rfl⟩

/-- C5 counterexample: a body-read error during SSE streaming neither yields
`502` — the upstream status `200` has already been forwarded to the client —
nor suppresses storage: an interaction is still stored for that request. -/
theorem streaming_error_not_502 :
    (proxy_result none sampleRequest {} (.streamed 200 [] [.error "connection reset"])).1
      = .streamedReply 200 [] [] ∧
    ((proxy_result none sampleRequest {}
      (.streamed 200 [] [.error "connection reset"])).2).length = 1 := by
  exact ⟨rfl, rfl⟩

/-! ## The usage extractor on non-JSON text -/

/-- C7 (amended): on a response text that does not parse as JSON the
extractor scans with the two token regexes and takes the last match of each
(`lastTokenCapture` is the last capture of the non-overlapping left-to-right
scan); when both sides are determined, `input_tokens` and `output_tokens`
are set to them and `total_tokens` is set to their sum modulo `2^64` (u64
addition wraps in release builds), while `total_tokens` stays unset when
either side is unknown. -/
theorem sse_usage_totals (m : Metadata) (body : String)
    (hjson : parseJson body = none) (hm : m.total_tokens = none) :
    (∀ i o, lastTokenCapture inputTokensLit body = some i →
      lastTokenCapture outputTokensLit body = some o →
      (extract_usage_tokens m body).input_tokens = some i ∧
      (extract_usage_tokens m body).output_tokens = some o ∧
      (extract_usage_tokens m body).total_tokens = some ((i + o) % 2 ^ 64)) ∧
    ((lastTokenCapture inputTokensLit body = none ∨
      lastTokenCapture outputTokensLit body = none) →
      (extract_usage_tokens m body).total_tokens = none) := by
  constructor
  · intro i o hi ho
    refine ⟨?_, ?_, ?_⟩ <;>
      simp [extract_usage_tokens, hjson, extract_tokens_from_sse, hi, ho]
  · intro h
    have hsse : extract_tokens_from_sse body = none := by
      unfold extract_tokens_from_sse
      rcases h with h | h
      · simp [h]
      · cases hin : lastTokenCapture inputTokensLit body <;> simp [h, hin]
    simp [extract_usage_tokens, hjson, hsse, hm]

/-- C7 witness: on the SSE-like body
`data: "input_tokens": 3, "output_tokens": 4` (which does not parse as JSON)
the extractor sets the totals from the captures 3 and 4. -/
theorem sse_usage_totals_witness :
    (extract_usage_tokens {} "data: \"input_tokens\": 3, \"output_tokens\": 4").total_tokens
      = some ((3 + 4) % 2 ^ 64) :=
  ((sse_usage_totals {} "data: \"input_tokens\": 3, \"output_tokens\": 4" rfl rfl).1
    3 4 rfl rfl).2.2

/-- C7 counterexample: with `input_tokens` equal to `u64::MAX` and
`output_tokens` equal to 1 in a non-JSON body, both sides are determined,
but the stored total is 0: u64 addition wrapped, so `total_tokens` does not
equal `input_tokens + output_tokens`. -/
theorem usage_total_overflow_wraps :
    (extract_usage_tokens {}
      "data: \"input_tokens\": 18446744073709551615, \"output_tokens\": 1").input_tokens
      = some 18446744073709551615 ∧
    (extract_usage_tokens {}
      "data: \"input_tokens\": 18446744073709551615, \"output_tokens\": 1").output_tokens
      = some 1 ∧
    (extract_usage_tokens {}
      "data: \"input_tokens\": 18446744073709551615, \"output_tokens\": 1").total_tokens
      = some 0 ∧
    (18446744073709551615 + 1) % 2 ^ 64 = 0 ∧
    (0 : Nat) ≠ 18446744073709551615 + 1 := by
  refine ⟨rfl, rfl, rfl, by norm_num, by norm_num⟩

/-! ## The serialization round trip: digits -/

theorem digitChar_facts : ∀ d : Fin 10,
    isDigitChar (digitChar d.val) = true ∧
    (digitChar d.val).toNat - 48 = d.val ∧
    isWsChar (digitChar d.val) = false ∧
    digitChar d.val ≠ 'n' ∧ digitChar d.val ≠ 't' ∧ digitChar d.val ≠ 'f' ∧
    digitChar d.val ≠ '"' ∧ digitChar d.val ≠ '-' ∧ digitChar d.val ≠ '[' ∧
    digitChar d.val ≠ Char.ofNat 123 ∧ digitChar d.val ≠ ']' ∧
    digitChar d.val ≠ Char.ofNat 125 := by
  decide

theorem hexVal_hexChar : ∀ h : Fin 16, hexVal (hexChar h.val) = some h.val := by
  decide

theorem takeDigits_append_digits (ds : List Nat) (rest : List Char)
    (hds : ∀ d ∈ ds, d < 10)
    (hrest : ∀ c, rest.head? = some c → isDigitChar c = false) :
    takeDigits (ds.map digitChar ++ rest) = (ds, rest) := by
  induction ds with
  | nil =>
    simp only [List.map_nil, List.nil_append]
    cases rest with
    | nil => rfl
    | cons c cs =>
      have hc := hrest c rfl
      simp [takeDigits, hc]
  | cons d ds ih =>
    have hd : d < 10 := hds d (by simp)
    have h1 := (digitChar_facts ⟨d, hd⟩).1
    have h2 := (digitChar_facts ⟨d, hd⟩).2.1
    simp only [List.map_cons, List.cons_append, takeDigits, h1, if_true,
      List.append_eq]
    rw [ih (fun x hx => hds x (by simp [hx]))]
    simp only [Fin.val_mk] at h2
    simp [h2]

theorem foldr_eq_ofDigits (l : List Nat) :
    l.foldr (fun x y => y * 10 + x) 0 = Nat.ofDigits 10 l := by
  induction l with
  | nil => simp [Nat.ofDigits]
  | cons d l ih =>
    simp only [List.foldr_cons, Nat.ofDigits_cons, ih]
    omega

theorem digitsVal_reverse (l : List Nat) : digitsVal l.reverse = Nat.ofDigits 10 l := by
  unfold digitsVal
  rw [List.foldl_reverse]
  exact foldr_eq_ofDigits l

theorem natCharsAux_eq_digits : ∀ n fuel, n ≤ fuel →
    natCharsAux fuel n = ((Nat.digits 10 n).reverse).map digitChar := by
  intro n
  induction n using Nat.strong_induction_on with
  | _ n ih =>
    intro fuel hf
    rcases n with _ | k
    · rcases fuel with _ | f <;> simp [natCharsAux]
    · rcases fuel with _ | f
      · omega
      · have hdiv : (k + 1) / 10 < k + 1 := Nat.div_lt_self (by omega) (by omega)
        have hle : (k + 1) / 10 ≤ f := by omega
        rw [natCharsAux, ih ((k + 1) / 10) hdiv f hle,
          Nat.digits_def' (by norm_num : (1 : ℕ) < 10) (Nat.succ_pos k)]
        simp

theorem natChars_spec (n : Nat) :
    ∃ ds, natChars n = ds.map digitChar ∧ digitsVal ds = n ∧ ds ≠ [] ∧
      ∀ d ∈ ds, d < 10 := by
  by_cases h : n = 0
  · subst h
    refine ⟨[0], ?_, by simp [digitsVal], by simp, by simp⟩
    simp only [natChars, if_pos rfl, List.map_cons, List.map_nil]
    rfl
  · refine ⟨(Nat.digits 10 n).reverse, ?_, ?_, ?_, ?_⟩
    · simp only [natChars, h, if_neg]
      exact natCharsAux_eq_digits n n le_rfl
    · rw [digitsVal_reverse, Nat.ofDigits_digits]
    · simp only [ne_eq, List.reverse_eq_nil_iff]
      exact Nat.digits_ne_nil_iff_ne_zero.mpr h
    · intro d hd
      simp only [List.mem_reverse] at hd
      exact Nat.digits_lt_base (by norm_num) hd

theorem restOk_facts (rest : List Char) (h : restOk rest) :
    (∀ c, rest.head? = some c → isDigitChar c = false) ∧ numberStop rest = true := by
  cases rest with
  | nil =>
    refine ⟨?_, rfl⟩
    intro c hc
    cases hc
  | cons c cs =>
    rcases h with h | h | h <;> subst h <;> refine ⟨?_, rfl⟩ <;>
      (intro x hx; simp at hx; subst hx; decide)

/-! ## The serialization round trip: strings -/

theorem parseStrChars_cons_raw (c : Char) (h1 : c ≠ '"') (h2 : c ≠ '\\')
    (h3 : ¬c.toNat < 32) (tail : List Char) :
    parseStrChars (c :: tail)
      = (parseStrChars tail).map (fun p => (c :: p.1, p.2)) := by
  cases hp : parseStrChars tail with
  | none =>
    unfold parseStrChars
    rw [if_neg h1, if_neg h2, if_neg h3, hp]
    rfl
  | some p =>
    cases p
    unfold parseStrChars
    rw [if_neg h1, if_neg h2, if_neg h3, hp]
    rfl

theorem parseStrChars_short (e ec : Char) (he : unescShort e = some ec)
    (hu : e ≠ 'u') (tail : List Char) :
    parseStrChars ('\\' :: e :: tail)
      = (parseStrChars tail).map (fun p => (ec :: p.1, p.2)) := by
  cases hp : parseStrChars tail with
  | none =>
    unfold parseStrChars
    rw [if_neg (by decide : ('\\' : Char) ≠ '"'), if_pos rfl]
    simp only [if_neg hu, he, hp]
    rfl
  | some p =>
    cases p
    unfold parseStrChars
    rw [if_neg (by decide : ('\\' : Char) ≠ '"'), if_pos rfl]
    simp only [if_neg hu, he, hp]
    rfl

theorem parseStrChars_unicode (code : Nat) (hlt : code < 32) (tail : List Char) :
    parseStrChars ('\\' :: 'u' :: '0' :: '0' :: hexChar (code / 16) ::
        hexChar (code % 16) :: tail)
      = (parseStrChars tail).map (fun p => (Char.ofNat code :: p.1, p.2)) := by
  have hhi : code / 16 < 16 := by omega
  have hlo : code % 16 < 16 := Nat.mod_lt _ (by omega)
  have e1 : hexVal (hexChar (code / 16)) = some (code / 16) := hexVal_hexChar ⟨_, hhi⟩
  have e2 : hexVal (hexChar (code % 16)) = some (code % 16) := hexVal_hexChar ⟨_, hlo⟩
  have hcode : 0 * 4096 + 0 * 256 + code / 16 * 16 + code % 16 = code := by
    have := Nat.div_add_mod code 16
    omega
  have hsur : ¬(55296 ≤ code ∧ code < 57344) := by omega
  cases hp : parseStrChars tail with
  | none =>
    unfold parseStrChars
    rw [if_neg (by decide : ('\\' : Char) ≠ '"'), if_pos rfl]
    simp only [show hexVal '0' = some 0 from rfl, e1, e2, hp, hcode, if_neg hsur]
    simp
  | some p =>
    cases p
    unfold parseStrChars
    rw [if_neg (by decide : ('\\' : Char) ≠ '"'), if_pos rfl]
    simp only [show hexVal '0' = some 0 from rfl, e1, e2, hp, hcode, if_neg hsur]
    simp

theorem parseStrChars_escChars (cs : List Char) (rest : List Char) :
    parseStrChars (escChars cs ++ ('"' :: rest)) = some (cs, rest) := by
  induction cs with
  | nil =>
    show parseStrChars ('"' :: rest) = some ([], rest)
    unfold parseStrChars
    rw [if_pos rfl]
  | cons c cs ih =>
    show parseStrChars ((escChar c ++ escChars cs) ++ ('"' :: rest)) = some (c :: cs, rest)
    rw [List.append_assoc]
    by_cases h1 : c = '"'
    · subst h1
      rw [show escChar '"' = ['\\', '"'] from rfl]
      rw [List.cons_append, List.cons_append,
        parseStrChars_short '"' '"' rfl (by decide), List.nil_append, ih]
      rfl
    · by_cases h2 : c = '\\'
      · subst h2
        rw [show escChar '\\' = ['\\', '\\'] from rfl]
        rw [List.cons_append, List.cons_append,
          parseStrChars_short '\\' '\\' rfl (by decide), List.nil_append, ih]
        rfl
      · by_cases h3 : c = Char.ofNat 8
        · subst h3
          rw [show escChar (Char.ofNat 8) = ['\\', 'b'] from rfl]
          rw [List.cons_append, List.cons_append,
            parseStrChars_short 'b' (Char.ofNat 8) rfl (by decide), List.nil_append, ih]
          rfl
        · by_cases h4 : c = '\t'
          · subst h4
            rw [show escChar '\t' = ['\\', 't'] from rfl]
            rw [List.cons_append, List.cons_append,
              parseStrChars_short 't' '\t' rfl (by decide), List.nil_append, ih]
            rfl
          · by_cases h5 : c = '\n'
            · subst h5
              rw [show escChar '\n' = ['\\', 'n'] from rfl]
              rw [List.cons_append, List.cons_append,
                parseStrChars_short 'n' '\n' rfl (by decide), List.nil_append, ih]
              rfl
            · by_cases h6 : c = Char.ofNat 12
              · subst h6
                rw [show escChar (Char.ofNat 12) = ['\\', 'f'] from rfl]
                rw [List.cons_append, List.cons_append,
                  parseStrChars_short 'f' (Char.ofNat 12) rfl (by decide), List.nil_append, ih]
                rfl
              · by_cases h7 : c = Char.ofNat 13
                · subst h7
                  rw [show escChar (Char.ofNat 13) = ['\\', 'r'] from rfl]
                  rw [List.cons_append, List.cons_append,
                    parseStrChars_short 'r' (Char.ofNat 13) rfl (by decide), List.nil_append, ih]
                  rfl
                · by_cases hctl : c.toNat < 32
                  · have hlist : escChar c = ['\\', 'u', '0', '0',
                        hexChar (c.toNat / 16), hexChar (c.toNat % 16)] := by
                      simp only [escChar, if_neg h1, if_neg h2, if_neg h3, if_neg h4,
                        if_neg h5, if_neg h6, if_neg h7, if_pos hctl]
                    rw [hlist]
                    simp only [List.cons_append, List.nil_append]
                    rw [parseStrChars_unicode c.toNat hctl, ih, Char.ofNat_toNat]
                    rfl
                  · have hlist : escChar c = [c] := by
                      simp only [escChar, if_neg h1, if_neg h2, if_neg h3, if_neg h4,
                        if_neg h5, if_neg h6, if_neg h7, if_neg hctl]
                    rw [hlist]
                    simp only [List.cons_append, List.nil_append]
                    rw [parseStrChars_cons_raw c h1 h2 hctl, ih]
                    rfl

/-! ## The serialization round trip: values -/

theorem skipWs_cons_nonws (c : Char) (l : List Char) (h : isWsChar c = false) :
    skipWs (c :: l) = c :: l := by
  simp [skipWs, h]

theorem serElemsTail_cons (e : Json) (es : List Json) :
    serElemsTail (e :: es) = ',' :: serElems (e :: es) := by
  simp [serElemsTail, serElems]

theorem serFieldsTail_cons (k : String) (v : Json) (fs : List (String × Json)) :
    serFieldsTail ((k, v) :: fs) = ',' :: serFields ((k, v) :: fs) := by
  simp [serFieldsTail, serFields]

theorem serJson_head (v : Json) :
    ∃ c cs, serJson v = c :: cs ∧ isWsChar c = false ∧ c ≠ ']' ∧ c ≠ Char.ofNat 125 := by
  cases v with
  | null =>
    refine ⟨'n', "ull".data, ?_, by decide, by decide, by decide⟩
    simp only [serJson]
  | bool b =>
    cases b
    · refine ⟨'f', "alse".data, ?_, by decide, by decide, by decide⟩
      simp only [serJson]
    · refine ⟨'t', "rue".data, ?_, by decide, by decide, by decide⟩
      simp only [serJson]
  | num n =>
    obtain ⟨ds, hmap, _, hne, hlt⟩ := natChars_spec n.natAbs
    by_cases hneg : n < 0
    · refine ⟨'-', natChars n.natAbs, ?_, by decide, by decide, by decide⟩
      simp [serJson, intChars, hneg]
    · rcases ds with _ | ⟨d0, ds0⟩
      · exact absurd rfl hne
      · have hd0 : d0 < 10 := hlt d0 (by simp)
        have hfacts := digitChar_facts ⟨d0, hd0⟩
        simp only [Fin.val_mk] at hfacts
        refine ⟨digitChar d0, ds0.map digitChar, ?_, hfacts.2.2.1, hfacts.2.2.2.2.2.2.2.2.2.2.1,
          hfacts.2.2.2.2.2.2.2.2.2.2.2⟩
        simp [serJson, intChars, hneg, hmap]
  | str s =>
    exact ⟨'"', escChars s.data ++ ['"'], by simp [serJson], by decide, by decide, by decide⟩
  | arr es =>
    exact ⟨'[', serElems es ++ [']'], by simp [serJson], by decide, by decide, by decide⟩
  | obj fs =>
    exact ⟨Char.ofNat 123, serFields fs ++ [Char.ofNat 125], by simp [serJson],
      by decide, by decide, by decide⟩

theorem parseVal_digits (fuel : Nat) (d0 : Nat) (ds0 : List Nat) (rest : List Char)
    (hall : ∀ d ∈ d0 :: ds0, d < 10)
    (hrest1 : ∀ c, rest.head? = some c → isDigitChar c = false)
    (hrest2 : numberStop rest = true) :
    parseVal (fuel + 1) (List.map digitChar (d0 :: ds0) ++ rest)
      = some (.num (digitsVal (d0 :: ds0)), rest) := by
  have hd0 : d0 < 10 := hall d0 (by simp)
  have hfacts := digitChar_facts ⟨d0, hd0⟩
  simp only [Fin.val_mk] at hfacts
  obtain ⟨f1, _, f3, f4, f5, f6, f7, f8, _, _, _, _⟩ := hfacts
  have htake : takeDigits (digitChar d0 :: (List.map digitChar ds0 ++ rest))
      = (d0 :: ds0, rest) := by
    have := takeDigits_append_digits (d0 :: ds0) rest hall hrest1
    simpa using this
  simp only [List.map_cons, List.cons_append]
  have hred : parseVal (fuel + 1) (digitChar d0 :: (List.map digitChar ds0 ++ rest))
      = (match skipWs (digitChar d0 :: (List.map digitChar ds0 ++ rest)) with
         | [] => none
         | c :: cs1 =>
           if c = 'n' then
             match cs1 with
             | 'u' :: 'l' :: 'l' :: r => some (.null, r)
             | _ => none
           else if c = 't' then
             match cs1 with
             | 'r' :: 'u' :: 'e' :: r => some (.bool true, r)
             | _ => none
           else if c = 'f' then
             match cs1 with
             | 'a' :: 'l' :: 's' :: 'e' :: r => some (.bool false, r)
             | _ => none
           else if c = '"' then
             match parseStrChars cs1 with
             | some (s, r) => some (.str (String.mk s), r)
             | none => none
           else if c = '-' then
             match takeDigits cs1 with
             | ([], _) => none
             | (ds, r) =>
               if numberStop r then some (.num (-(digitsVal ds : Int)), r) else none
           else if isDigitChar c then
             match takeDigits (c :: cs1) with
             | (ds, r) =>
               if numberStop r then some (.num (digitsVal ds), r) else none
           else if c = '[' then
             match skipWs cs1 with
             | [] => none
             | c2 :: cs2 =>
               if c2 = ']' then some (.arr [], cs2)
               else
                 match parseElems fuel (c2 :: cs2) with
                 | some (es, r) => some (.arr es, r)
                 | none => none
           else if c = Char.ofNat 123 then
             match skipWs cs1 with
             | [] => none
             | c2 :: cs2 =>
               if c2 = Char.ofNat 125 then some (.obj [], cs2)
               else
                 match parseFields fuel (c2 :: cs2) with
                 | some (fs, r) => some (.obj fs, r)
                 | none => none
           else none) := rfl
  rw [hred, skipWs_cons_nonws _ _ f3]
  simp only [if_neg f4, if_neg f5, if_neg f6, if_neg f7, if_neg f8, if_pos f1, htake,
    if_pos hrest2]

theorem parse_round_trip : ∀ fuel : Nat,
    (∀ v rest, needFuel v ≤ fuel → restOk rest →
      parseVal fuel (serJson v ++ rest) = some (v, rest)) ∧
    (∀ e es rest, elemsFuel (e :: es) ≤ fuel →
      parseElems fuel (serElems (e :: es) ++ (']' :: rest)) = some (e :: es, rest)) ∧
    (∀ k v fs rest, fieldsFuel ((k, v) :: fs) ≤ fuel →
      parseFields fuel (serFields ((k, v) :: fs) ++ (Char.ofNat 125 :: rest))
        = some ((k, v) :: fs, rest)) := by
  intro fuel
  induction fuel with
  | zero =>
    refine ⟨?_, ?_, ?_⟩
    · intro v rest hv _
      exfalso
      cases v <;> simp only [needFuel] at hv <;> omega
    · intro e es rest h
      exfalso
      simp only [elemsFuel] at h
      omega
    · intro k v fs rest h
      exfalso
      simp only [fieldsFuel] at h
      omega
  | succ fuel ih =>
    obtain ⟨ihV, ihE, ihF⟩ := ih
    refine ⟨?_, ?_, ?_⟩
    · intro v rest hv hrest
      obtain ⟨hnd, hns⟩ := restOk_facts rest hrest
      cases v with
      | null =>
        rw [show serJson .null = 'n' :: "ull".data from by simp only [serJson]]
        rfl
      | bool b =>
        cases b
        · rw [show serJson (.bool false) = 'f' :: "alse".data from by
            simp only [serJson]]
          rfl
        · rw [show serJson (.bool true) = 't' :: "rue".data from by
            simp only [serJson]]
          rfl
      | num n =>
        obtain ⟨ds, hmap, hval, hne, hlt⟩ := natChars_spec n.natAbs
        rcases ds with _ | ⟨d0, ds0⟩
        · exact absurd rfl hne
        by_cases hneg : n < 0
        · rw [show serJson (.num n) = '-' :: natChars n.natAbs from by
            simp [serJson, intChars, hneg], hmap, List.cons_append]
          have htake : takeDigits (List.map digitChar (d0 :: ds0) ++ rest)
              = (d0 :: ds0, rest) := takeDigits_append_digits _ _ hlt hnd
          have hred : parseVal (fuel + 1)
              ('-' :: (List.map digitChar (d0 :: ds0) ++ rest))
              = (match takeDigits (List.map digitChar (d0 :: ds0) ++ rest) with
                 | ([], _) => none
                 | (ds2, r) =>
                   if numberStop r then some (.num (-(digitsVal ds2 : Int)), r)
                   else none) := rfl
          rw [hred, htake]
          show (if numberStop rest then
              some (Json.num (-(digitsVal (d0 :: ds0) : Int)), rest) else none)
            = some (.num n, rest)
          rw [if_pos hns]
          have hn : (-(digitsVal (d0 :: ds0) : Int)) = n := by
            rw [hval]
            omega
          rw [hn]
        · rw [show serJson (.num n) = natChars n.natAbs from by
            simp [serJson, intChars, hneg], hmap, parseVal_digits fuel d0 ds0 rest hlt hnd hns]
          have hn : ((digitsVal (d0 :: ds0) : Int)) = n := by
            rw [hval]
            omega
          rw [hn]
      | str s =>
        rw [show serJson (.str s) ++ rest
            = '"' :: (escChars s.data ++ ('"' :: rest)) from by simp [serJson]]
        have hred : parseVal (fuel + 1) ('"' :: (escChars s.data ++ ('"' :: rest)))
            = (match parseStrChars (escChars s.data ++ ('"' :: rest)) with
               | some (s2, r) => some (.str (String.mk s2), r)
               | none => none) := rfl
        rw [hred, parseStrChars_escChars]
      | arr es =>
        rcases es with _ | ⟨e, es⟩
        · rw [show serJson (.arr []) ++ rest = '[' :: (']' :: rest) from by
            simp [serJson, serElems]]
          rfl
        · have hfuel : elemsFuel (e :: es) ≤ fuel := by
            simp only [needFuel] at hv
            omega
          obtain ⟨c, cs0, hs, hws, hbr, _⟩ := serJson_head e
          rw [show serJson (.arr (e :: es)) ++ rest
              = '[' :: (serElems (e :: es) ++ (']' :: rest)) from by simp [serJson]]
          have hred : parseVal (fuel + 1) ('[' :: (serElems (e :: es) ++ (']' :: rest)))
              = (match skipWs (serElems (e :: es) ++ (']' :: rest)) with
                 | [] => none
                 | c2 :: cs2 =>
                   if c2 = ']' then some (.arr [], cs2)
                   else
                     match parseElems fuel (c2 :: cs2) with
                     | some (es2, r) => some (.arr es2, r)
                     | none => none) := rfl
          rw [hred]
          have hY : serElems (e :: es) ++ (']' :: rest)
              = c :: (cs0 ++ (serElemsTail es ++ (']' :: rest))) := by
            simp [serElems, hs, List.append_assoc]
          rw [hY, skipWs_cons_nonws _ _ hws]
          show (if c = ']' then
              some (Json.arr [], cs0 ++ (serElemsTail es ++ (']' :: rest)))
            else
              match parseElems fuel (c :: (cs0 ++ (serElemsTail es ++ (']' :: rest)))) with
              | some (es2, r) => some (.arr es2, r)
              | none => none) = some (.arr (e :: es), rest)
          rw [if_neg hbr, ← hY, ihE e es rest hfuel]
      | obj fs =>
        rcases fs with _ | ⟨⟨k, v⟩, fs⟩
        · rw [show serJson (.obj []) ++ rest
              = Char.ofNat 123 :: (Char.ofNat 125 :: rest) from by
            simp [serJson, serFields]]
          rfl
        · have hfuel : fieldsFuel ((k, v) :: fs) ≤ fuel := by
            simp only [needFuel] at hv
            omega
          rw [show serJson (.obj ((k, v) :: fs)) ++ rest
              = Char.ofNat 123 :: (serFields ((k, v) :: fs) ++ (Char.ofNat 125 :: rest))
              from by simp [serJson]]
          have hred : parseVal (fuel + 1)
              (Char.ofNat 123 :: (serFields ((k, v) :: fs) ++ (Char.ofNat 125 :: rest)))
              = (match skipWs (serFields ((k, v) :: fs) ++ (Char.ofNat 125 :: rest)) with
                 | [] => none
                 | c2 :: cs2 =>
                   if c2 = Char.ofNat 125 then some (.obj [], cs2)
                   else
                     match parseFields fuel (c2 :: cs2) with
                     | some (fs2, r) => some (.obj fs2, r)
                     | none => none) := rfl
          rw [hred]
          have hY : serFields ((k, v) :: fs) ++ (Char.ofNat 125 :: rest)
              = '"' :: ((escChars k.data ++ ('"' :: ':' :: serJson v)) ++
                (serFieldsTail fs ++ (Char.ofNat 125 :: rest))) := by
            simp [serFields, serField, List.append_assoc]
          rw [hY, skipWs_cons_nonws _ _ (by decide)]
          show (if ('"' : Char) = Char.ofNat 125 then
              some (Json.obj [], (escChars k.data ++ ('"' :: ':' :: serJson v)) ++
                (serFieldsTail fs ++ (Char.ofNat 125 :: rest)))
            else
              match parseFields fuel ('"' :: ((escChars k.data ++ ('"' :: ':' :: serJson v)) ++
                (serFieldsTail fs ++ (Char.ofNat 125 :: rest)))) with
              | some (fs2, r) => some (.obj fs2, r)
              | none => none) = some (.obj ((k, v) :: fs), rest)
          rw [if_neg (by decide), ← hY, ihF k v fs rest hfuel]
    · intro e es rest h
      have hfe : needFuel e ≤ fuel := by
        simp only [elemsFuel] at h
        omega
      have hcs : serElems (e :: es) ++ (']' :: rest)
          = serJson e ++ (serElemsTail es ++ (']' :: rest)) := by
        simp [serElems, List.append_assoc]
      have hrest2 : restOk (serElemsTail es ++ (']' :: rest)) := by
        cases es with
        | nil => simp [serElemsTail, restOk]
        | cons e2 es2 =>
          rw [serElemsTail_cons, List.cons_append]
          simp [restOk]
      have hred : parseElems (fuel + 1) (serElems (e :: es) ++ (']' :: rest))
          = (match parseVal fuel (serElems (e :: es) ++ (']' :: rest)) with
             | none => none
             | some (v, r) =>
               match skipWs r with
               | [] => none
               | c :: r2 =>
                 if c = ',' then
                   match parseElems fuel r2 with
                   | some (es2, r3) => some (v :: es2, r3)
                   | none => none
                 else if c = ']' then some ([v], r2)
                 else none) := rfl
      rw [hred, hcs, ihV e (serElemsTail es ++ (']' :: rest)) hfe hrest2]
      cases es with
      | nil =>
        simp only [serElemsTail, List.nil_append]
        rfl
      | cons e2 es2 =>
        have hfuel2 : elemsFuel (e2 :: es2) ≤ fuel := by
          have hx : elemsFuel (e :: e2 :: es2)
              = 1 + max (needFuel e) (elemsFuel (e2 :: es2)) := by
            simp only [elemsFuel]
          rw [hx] at h
          omega
        rw [serElemsTail_cons, List.cons_append]
        show (match parseElems fuel (serElems (e2 :: es2) ++ (']' :: rest)) with
              | some (es2, r3) => some (e :: es2, r3)
              | none => none) = some (e :: e2 :: es2, rest)
        rw [ihE e2 es2 rest hfuel2]
    · intro k v fs rest h
      have hfv : needFuel v ≤ fuel := by
        simp only [fieldsFuel] at h
        omega
      have hcs : serFields ((k, v) :: fs) ++ (Char.ofNat 125 :: rest)
          = '"' :: (escChars k.data ++ ('"' :: (':' :: (serJson v ++
            (serFieldsTail fs ++ (Char.ofNat 125 :: rest)))))) := by
        simp [serFields, serField, List.append_assoc]
      have hrest2 : restOk (serFieldsTail fs ++ (Char.ofNat 125 :: rest)) := by
        cases fs with
        | nil => simp [serFieldsTail, restOk]
        | cons p fs2 =>
          rcases p with ⟨k2, v2⟩
          rw [serFieldsTail_cons, List.cons_append]
          simp [restOk]
      rw [hcs]
      have hred : parseFields (fuel + 1) ('"' :: (escChars k.data ++ ('"' :: (':' ::
          (serJson v ++ (serFieldsTail fs ++ (Char.ofNat 125 :: rest)))))))
          = (match parseStrChars (escChars k.data ++ ('"' :: (':' :: (serJson v ++
              (serFieldsTail fs ++ (Char.ofNat 125 :: rest)))))) with
             | none => none
             | some (k2, r) =>
               match skipWs r with
               | [] => none
               | c2 :: r2 =>
                 if c2 = ':' then
                   match parseVal fuel r2 with
                   | none => none
                   | some (v2, r3) =>
                     match skipWs r3 with
                     | [] => none
                     | c3 :: r4 =>
                       if c3 = ',' then
                         match parseFields fuel r4 with
                         | some (fs2, r5) => some ((String.mk k2, v2) :: fs2, r5)
                         | none => none
                       else if c3 = Char.ofNat 125 then some ([(String.mk k2, v2)], r4)
                       else none
                 else none) := rfl
      rw [hred, parseStrChars_escChars]
      show (match parseVal fuel (serJson v ++ (serFieldsTail fs ++
          (Char.ofNat 125 :: rest))) with
        | none => none
        | some (v2, r3) =>
          match skipWs r3 with
          | [] => none
          | c3 :: r4 =>
            if c3 = ',' then
              match parseFields fuel r4 with
              | some (fs2, r5) => some ((String.mk k.data, v2) :: fs2, r5)
              | none => none
            else if c3 = Char.ofNat 125 then some ([(String.mk k.data, v2)], r4)
            else none) = some ((k, v) :: fs, rest)
      rw [ihV v (serFieldsTail fs ++ (Char.ofNat 125 :: rest)) hfv hrest2]
      cases fs with
      | nil =>
        simp only [serFieldsTail, List.nil_append]
        rfl
      | cons p fs2 =>
        rcases p with ⟨k2, v2⟩
        have hfuel2 : fieldsFuel ((k2, v2) :: fs2) ≤ fuel := by
          have hx : fieldsFuel ((k, v) :: (k2, v2) :: fs2)
              = 1 + max (needFuel v) (fieldsFuel ((k2, v2) :: fs2)) := by
            simp only [fieldsFuel]
          rw [hx] at h
          omega
        rw [serFieldsTail_cons, List.cons_append]
        show (match parseFields fuel (serFields ((k2, v2) :: fs2) ++
            (Char.ofNat 125 :: rest)) with
          | some (fs3, r5) => some ((String.mk k.data, v) :: fs3, r5)
          | none => none) = some ((k, v) :: (k2, v2) :: fs2, rest)
        rw [ihF k2 v2 fs2 rest hfuel2]

mutual

theorem needFuel_le_len (v : Json) : needFuel v ≤ (serJson v).length := by
  cases v with
  | null => simp [needFuel, serJson]
  | bool b => cases b <;> simp [needFuel, serJson]
  | num n =>
    obtain ⟨ds, hmap, _, hne, _⟩ := natChars_spec n.natAbs
    rcases ds with _ | ⟨d0, ds0⟩
    · exact absurd rfl hne
    by_cases hneg : n < 0
    · rw [show serJson (.num n) = '-' :: natChars n.natAbs from by
        simp [serJson, intChars, hneg]]
      simp [needFuel]
    · rw [show serJson (.num n) = natChars n.natAbs from by
        simp [serJson, intChars, hneg], hmap]
      simp [needFuel]
  | str s => simp [needFuel, serJson]
  | arr es =>
    cases es with
    | nil => simp [needFuel, elemsFuel, serJson, serElems]
    | cons e es2 =>
      have h := elemsFuel_le_len e es2
      have hlen : (serJson (.arr (e :: es2))).length
          = (serElems (e :: es2)).length + 2 := by
        rw [show serJson (.arr (e :: es2))
            = ('[' :: serElems (e :: es2)) ++ [']'] from by simp [serJson]]
        simp
      rw [hlen, show needFuel (.arr (e :: es2)) = 1 + elemsFuel (e :: es2) from by
        simp [needFuel]]
      omega
  | obj fs =>
    cases fs with
    | nil => simp [needFuel, fieldsFuel, serJson, serFields]
    | cons p fs2 =>
      rcases p with ⟨k, v2⟩
      have h := fieldsFuel_le_len k v2 fs2
      have hlen : (serJson (.obj ((k, v2) :: fs2))).length
          = (serFields ((k, v2) :: fs2)).length + 2 := by
        rw [show serJson (.obj ((k, v2) :: fs2))
            = (Char.ofNat 123 :: serFields ((k, v2) :: fs2)) ++ [Char.ofNat 125] from by
          simp [serJson]]
        simp
      rw [hlen, show needFuel (.obj ((k, v2) :: fs2))
          = 1 + fieldsFuel ((k, v2) :: fs2) from by simp [needFuel]]
      omega
termination_by sizeOf v

theorem elemsFuel_le_len (e : Json) (es : List Json) :
    elemsFuel (e :: es) ≤ (serElems (e :: es)).length + 1 := by
  have h1 := needFuel_le_len e
  cases es with
  | nil =>
    rw [show serElems [e] = serJson e from by simp [serElems, serElemsTail]]
    simp only [elemsFuel]
    omega
  | cons e2 es2 =>
    have h2 := elemsFuel_le_len e2 es2
    have hlen : (serElems (e :: e2 :: es2)).length
        = (serJson e).length + 1 + (serElems (e2 :: es2)).length := by
      rw [show serElems (e :: e2 :: es2)
          = serJson e ++ (',' :: serElems (e2 :: es2)) from by
        rw [show serElems (e :: e2 :: es2)
            = serJson e ++ serElemsTail (e2 :: es2) from by simp [serElems]]
        rw [serElemsTail_cons]]
      simp
      omega
    have hx : elemsFuel (e :: e2 :: es2)
        = 1 + max (needFuel e) (elemsFuel (e2 :: es2)) := by
      simp only [elemsFuel]
    rw [hx, hlen]
    omega
termination_by sizeOf (e :: es)

theorem fieldsFuel_le_len (k : String) (v : Json) (fs : List (String × Json)) :
    fieldsFuel ((k, v) :: fs) ≤ (serFields ((k, v) :: fs)).length + 1 := by
  have h1 := needFuel_le_len v
  have hf : (serField k v).length = (escChars k.data).length + 3 + (serJson v).length := by
    rw [show serField k v = ('"' :: escChars k.data) ++ ('"' :: ':' :: serJson v) from by
      simp [serField]]
    simp
    omega
  cases fs with
  | nil =>
    rw [show serFields [(k, v)] = serField k v from by simp [serFields, serFieldsTail]]
    simp only [fieldsFuel]
    omega
  | cons p fs2 =>
    rcases p with ⟨k2, v2⟩
    have h2 := fieldsFuel_le_len k2 v2 fs2
    have hlen : (serFields ((k, v) :: (k2, v2) :: fs2)).length
        = (serField k v).length + 1 + (serFields ((k2, v2) :: fs2)).length := by
      rw [show serFields ((k, v) :: (k2, v2) :: fs2)
          = serField k v ++ (',' :: serFields ((k2, v2) :: fs2)) from by
        rw [show serFields ((k, v) :: (k2, v2) :: fs2)
            = serField k v ++ serFieldsTail ((k2, v2) :: fs2) from by simp [serFields]]
        rw [serFieldsTail_cons]]
      simp
      omega
    have hx : fieldsFuel ((k, v) :: (k2, v2) :: fs2)
        = 1 + max (needFuel v) (fieldsFuel ((k2, v2) :: fs2)) := by
      simp only [fieldsFuel]
    rw [hx, hlen]
    omega
termination_by sizeOf ((k, v) :: fs)

end

theorem parseJson_serJson (v : Json) : parseJson (String.mk (serJson v)) = some v := by
  have h := (parse_round_trip ((serJson v).length + 1)).1 v []
    (le_trans (needFuel_le_len v) (by omega)) (by simp [restOk])
  rw [List.append_nil] at h
  show (match parseVal ((serJson v).length + 1) (serJson v) with
        | some (v2, rest) => if skipWs rest = [] then some v2 else none
        | none => none) = some v
  rw [h]
  rfl

/-- C6 (amended): for every body text that parses as a JSON value other than
null or a string, parsing it to JsonOrString and re-serializing it to the
outbound body string preserves the JSON value: re-parsing the serialized
form yields the same JSON value.  (Null and string values are excluded
because `json_value_to_body_string` maps null to the empty string and a
string value to its raw contents, neither of which re-parses to the original
value in general — see the counterexample.) -/
theorem body_roundtrip_preserves_json (t : String) (v : Json)
    (hparse : parseJson t = some v) (hnull : v ≠ Json.null)
    (hstr : ∀ s, v ≠ Json.str s) :
    text_to_json_or_string (json_value_to_body_string (text_to_json_or_string t))
      = text_to_json_or_string t := by
  have ht : text_to_json_or_string t = v := by
    simp [text_to_json_or_string, hparse]
  rw [ht]
  have hser : json_value_to_body_string v = String.mk (serJson v) := by
    cases v with
    | null => exact absurd rfl hnull
    | str s => exact absurd rfl (hstr s)
    | bool b => rfl
    | num n => rfl
    | arr es => rfl
    | obj fs => rfl
  rw [hser]
  simp [text_to_json_or_string, parseJson_serJson v]

/-- C6 witness: the body `[1,true]` parses as a JSON array and survives the
parse, serialize, re-parse round trip. -/
theorem body_roundtrip_witness :
    text_to_json_or_string (json_value_to_body_string (text_to_json_or_string "[1,true]"))
      = text_to_json_or_string "[1,true]" :=
  body_roundtrip_preserves_json "[1,true]" (Json.arr [Json.num 1, Json.bool true])
    (by rfl) (fun h => Json.noConfusion h) (fun _ h => Json.noConfusion h)

/-- C6 counterexample: the body text `null` parses to the JSON value null,
`json_value_to_body_string` maps null to the empty string, and re-parsing
the empty string yields the JSON string `""`, not null; likewise the JSON
string body `"123"` re-serializes to the raw text `123`, which re-parses as
the number 123. -/
theorem null_body_roundtrip_fails :
    text_to_json_or_string "null" = Json.null ∧
    json_value_to_body_string Json.null = "" ∧
    text_to_json_or_string "" = Json.str "" ∧
    Json.str "" ≠ Json.null ∧
    text_to_json_or_string "\"123\"" = Json.str "123" ∧
    json_value_to_body_string (Json.str "123") = "123" ∧
    text_to_json_or_string "123" = Json.num 123 ∧
    Json.num 123 ≠ Json.str "123" := by
  refine ⟨rfl, rfl, rfl, fun h => Json.noConfusion h, rfl, rfl, rfl,
    fun h => Json.noConfusion h⟩

end Replayr
